import Mathlib

/-!
Verification of the spin-orbital expansion engine and the determinant-space
Hamiltonian builder of `proc/external_active_space_solver.py`.

The Python module is shallowly embedded: the opaque active-space integral
provider becomes a structure of fields (`AsInts`), floating-point values are
modelled as rationals, Python lists become Lean lists, and the nested `for`
loops that build the exported tensors become nested `List.flatMap` over
`List.range`.  The external dense eigen-decomposition primitive
(`np.linalg.eigh`) is a parameter of the Hamiltonian builder.
-/

/-- Electronic state: irrep label plus alpha/beta electron counts
(`state.irrep()`, `state.na()`, `state.nb()` in the source). -/
structure StateInfo where
  irrep : Nat
  na : Nat
  nb : Nat
deriving DecidableEq

/-- `forte.Determinant`: independent alpha and beta occupation bit sets;
equality is by bit pattern. -/
structure Determinant where
  alfa : Finset Nat
  beta : Finset Nat
deriving DecidableEq

instance : Inhabited Determinant := ⟨⟨∅, ∅⟩⟩

/-- The active-space integral provider (`as_ints` in the source), an opaque
collaborator exposing the accessors the module calls. -/
structure AsInts where
  nmo : Nat
  mo_symmetry : List Nat
  frozen_core_energy : ℚ
  scalar_energy : ℚ
  nuclear_repulsion_energy : ℚ
  oei_a : Nat → Nat → ℚ
  oei_b : Nat → Nat → ℚ
  tei_aa : Nat → Nat → Nat → Nat → ℚ
  tei_ab : Nat → Nat → Nat → Nat → ℚ
  tei_bb : Nat → Nat → Nat → Nat → ℚ
  slater_rules : Determinant → Determinant → ℚ

/-- `file['symmetry']`: each spatial symmetry label repeated twice
(`[i for i in as_ints.mo_symmetry() for j in range(2)]`). -/
def symmetryList (as : AsInts) : List Nat :=
  as.mo_symmetry.flatMap fun s => [s, s]

/-- `file['spin']`: `[j for i in range(nmo) for j in range(2)]`. -/
def spinList (nmo : Nat) : List Nat :=
  (List.range nmo).flatMap fun _ => [0, 1]

/-- `oei_a` list: `[(i*2, j*2, as_ints.oei_a(i,j)) for i ... for j ...]`. -/
def oeiAList (as : AsInts) : List (Nat × Nat × ℚ) :=
  (List.range as.nmo).flatMap fun i =>
    (List.range as.nmo).map fun j => (i * 2, j * 2, as.oei_a i j)

/-- `oei_b` list: `[(i*2+1, j*2+1, as_ints.oei_b(i,j)) for i ... for j ...]`. -/
def oeiBList (as : AsInts) : List (Nat × Nat × ℚ) :=
  (List.range as.nmo).flatMap fun i =>
    (List.range as.nmo).map fun j => (i * 2 + 1, j * 2 + 1, as.oei_b i j)

/-- The `data` of `file['oei']`: `oei_a + oei_b`. -/
def oeiList (as : AsInts) : List (Nat × Nat × ℚ) :=
  oeiAList as ++ oeiBList as

/-- The six `tei.append(...)` lines in the innermost loop body
(source comments: aaaa, abab, abba, baab, baba, bbbb). -/
def teiBlock (as : AsInts) (i j k l : Nat) : List (Nat × Nat × Nat × Nat × ℚ) :=
  [ (i * 2, j * 2, k * 2, l * 2, as.tei_aa i j k l),
    (i * 2, j * 2 + 1, k * 2, l * 2 + 1, as.tei_ab i j k l),
    (i * 2, j * 2 + 1, l * 2 + 1, k * 2, -as.tei_ab i j k l),
    (j * 2 + 1, i * 2, k * 2, l * 2 + 1, -as.tei_ab i j k l),
    (j * 2 + 1, i * 2, l * 2 + 1, k * 2, as.tei_ab i j k l),
    (i * 2 + 1, j * 2 + 1, k * 2 + 1, l * 2 + 1, as.tei_bb i j k l) ]

/-- The `data` of `file['tei']`: the four nested loops over `range(nmo)`
appending the six-row block at every spatial quadruple. -/
def teiList (as : AsInts) : List (Nat × Nat × Nat × Nat × ℚ) :=
  (List.range as.nmo).flatMap fun i =>
    (List.range as.nmo).flatMap fun j =>
      (List.range as.nmo).flatMap fun k =>
        (List.range as.nmo).flatMap fun l => teiBlock as i j k l

/-- The integral exchange record built in one iteration of
`write_external_active_space_file` (the `data` parts of the JSON fields;
the fixed description strings are omitted). -/
structure ExchangeRecord where
  state_symmetry : Nat
  na : Nat
  nb : Nat
  nso : Nat
  symmetry : List Nat
  spin : List Nat
  scalar_energy : ℚ
  oei : List (Nat × Nat × ℚ)
  tei : List (Nat × Nat × Nat × Nat × ℚ)
deriving DecidableEq

/-- The loop body of `write_external_active_space_file` for one `state`. -/
def makeRecord (as : AsInts) (state : StateInfo) : ExchangeRecord :=
  { state_symmetry := state.irrep
    na := state.na
    nb := state.nb
    nso := 2 * as.nmo
    symmetry := symmetryList as
    spin := spinList as.nmo
    scalar_energy := as.frozen_core_energy + as.scalar_energy + as.nuclear_repulsion_energy
    oei := oeiList as
    tei := teiList as }

/-- `write_external_active_space_file`: one pass over the state map; each
iteration builds the record and writes it to `json_file`.  The returned list
is the sequence of (path, record) write events, in iteration order. -/
def writeExternalActiveSpaceFile (as : AsInts) (state_map : List (StateInfo × Nat))
    (json_file : String) : List (String × ExchangeRecord) :=
  state_map.map fun sn => (json_file, makeRecord as sn.1)

/-- The content a path holds after a sequence of whole-file writes: the last
write to that path wins (`open(json_file, 'w+')` truncates). -/
def persistedFile (events : List (String × ExchangeRecord)) (path : String) :
    Option ExchangeRecord :=
  ((events.filter fun e => decide (e.1 = path)).getLast?).map Prod.snd

/-- `read_external_active_space_file` (source lines 260-261). -/
def readExternalActiveSpaceFile (_as : AsInts) (_state_map : List (StateInfo × Nat)) : Bool :=
  false

/-- `itertools.combinations` on a list: all sorted-by-position selections of
`k` elements, emitted in lexicographic order of positions. -/
def combinations : Nat → List Nat → List (List Nat)
  | 0, _ => [[]]
  | _ + 1, [] => []
  | k + 1, x :: xs => ((combinations k xs).map fun c => x :: c) ++ combinations (k + 1) xs

/-- `d = forte.Determinant(); for i in astr: d.set_alfa_bit(i, True); ...`:
fold the bit-setting loop over an initial bit set. -/
def setBits (s : Finset Nat) (l : List Nat) : Finset Nat :=
  l.foldl (fun t i => insert i t) s

/-- The determinant built from one alpha string and one beta string. -/
def detOf (astr bstr : List Nat) : Determinant :=
  { alfa := setBits ∅ astr, beta := setBits ∅ bstr }

/-- Determinant enumeration of `make_hamiltonian` (source lines 93-107):
nested iteration over alpha combinations (outer) and beta combinations
(inner) of `orbs = range(nmo)`. -/
def enumerateDets (as : AsInts) (state : StateInfo) : List Determinant :=
  (combinations state.na (List.range as.nmo)).flatMap fun astr =>
    (combinations state.nb (List.range as.nmo)).map fun bstr => detOf astr bstr

/-- Python-level errors `make_hamiltonian` can raise in this embedding. -/
inductive PyErr where
  | indexError
  | invalidElectronCount
deriving DecidableEq

/-- The dense Hamiltonian `H[I][J] = as_ints.slater_rules(dets[I], dets[J])`
as a function of the row/column positions. -/
def hamMatrix (as : AsInts) (state : StateInfo) : Nat → Nat → ℚ :=
  fun I J => as.slater_rules ((enumerateDets as state).getD I default)
    ((enumerateDets as state).getD J default)

/-- `evals, evecs = np.linalg.eigh(H)`: the external eigen-decomposition
primitive, a parameter, applied to the assembled matrix and its dimension. -/
def hamEvals (eigh : Nat → (Nat → Nat → ℚ) → List ℚ) (as : AsInts) (state : StateInfo) :
    List ℚ :=
  eigh (enumerateDets as state).length (hamMatrix as state)

/-- `make_hamiltonian`: enumerate determinants, assemble the dense matrix,
diagonalize, report `evals[0] + as_ints.scalar_energy() +
as_ints.nuclear_repulsion_energy()`.  Indexing `evals[0]` out of range is an
`IndexError`. -/
def makeHamiltonian (eigh : Nat → (Nat → Nat → ℚ) → List ℚ) (as : AsInts)
    (state : StateInfo) : Except PyErr ℚ :=
  match (hamEvals eigh as state).get? 0 with
  | none => .error .indexError
  | some e0 => .ok (e0 + as.scalar_energy + as.nuclear_repulsion_energy)

/-- The state-averaged RDM bundle returned by
`active_space_solver.compute_average_rdms` (spin-sector tensors plus the
active dimension `nact = g1a.shape[0]`). -/
structure Rdms where
  nact : Nat
  g1a : Nat → Nat → ℚ
  g1b : Nat → Nat → ℚ
  g2aa : Nat → Nat → Nat → Nat → ℚ
  g2ab : Nat → Nat → Nat → Nat → ℚ
  g2bb : Nat → Nat → Nat → Nat → ℚ
  g3aaa : Nat → Nat → Nat → Nat → Nat → Nat → ℚ
  g3aab : Nat → Nat → Nat → Nat → Nat → Nat → ℚ
  g3abb : Nat → Nat → Nat → Nat → Nat → Nat → ℚ
  g3bbb : Nat → Nat → Nat → Nat → Nat → Nat → ℚ

/-- The external active-space solver consumed by `write_external_rdm_file`. -/
structure ActiveSpaceSolver where
  compute_average_rdms : List (StateInfo × List (Nat × ℚ)) → Nat → Rdms
  state_energies : List (StateInfo × List ℚ)

/-- One 6-index spin-orbital RDM entry `(i,j,k,l,m,n,value)`. -/
abbrev G3Entry := Nat × Nat × Nat × Nat × Nat × Nat × ℚ

/-- The twenty `gamma3.append(...)` lines in the innermost loop body of
`write_external_rdm_file` (source comments: aaa case, aab case, abb case,
bbb case). -/
def g3Block (r : Rdms) (i j k l m n : Nat) : List G3Entry :=
  [ (i * 2, j * 2, k * 2, l * 2, m * 2, n * 2, r.g3aaa i j k l m n),
    (i * 2, j * 2, k * 2 + 1, l * 2, m * 2, n * 2 + 1, r.g3aab i j k l m n),
    (i * 2, j * 2, k * 2 + 1, l * 2, n * 2 + 1, m * 2, -r.g3aab i j k l m n),
    (i * 2, j * 2, k * 2 + 1, n * 2 + 1, l * 2, m * 2, r.g3aab i j k l m n),
    (i * 2, k * 2 + 1, j * 2, l * 2, m * 2, n * 2 + 1, -r.g3aab i j k l m n),
    (i * 2, k * 2 + 1, j * 2, l * 2, n * 2 + 1, m * 2, r.g3aab i j k l m n),
    (i * 2, k * 2 + 1, j * 2, n * 2 + 1, l * 2, m * 2, -r.g3aab i j k l m n),
    (k * 2 + 1, i * 2, j * 2, l * 2, m * 2, n * 2 + 1, r.g3aab i j k l m n),
    (k * 2 + 1, i * 2, j * 2, l * 2, n * 2 + 1, m * 2, -r.g3aab i j k l m n),
    (k * 2 + 1, i * 2, j * 2, n * 2 + 1, l * 2, m * 2, r.g3aab i j k l m n),
    (i * 2, j * 2 + 1, k * 2 + 1, l * 2, m * 2 + 1, n * 2 + 1, r.g3abb i j k l m n),
    (i * 2, j * 2 + 1, k * 2 + 1, m * 2 + 1, l * 2, n * 2 + 1, -r.g3abb i j k l m n),
    (i * 2, j * 2 + 1, k * 2 + 1, m * 2 + 1, n * 2 + 1, l * 2, r.g3abb i j k l m n),
    (j * 2 + 1, i * 2, k * 2 + 1, l * 2, m * 2 + 1, n * 2 + 1, -r.g3abb i j k l m n),
    (j * 2 + 1, i * 2, k * 2 + 1, m * 2 + 1, l * 2, n * 2 + 1, r.g3abb i j k l m n),
    (j * 2 + 1, i * 2, k * 2 + 1, m * 2 + 1, n * 2 + 1, l * 2, -r.g3abb i j k l m n),
    (j * 2 + 1, k * 2 + 1, i * 2, l * 2, m * 2 + 1, n * 2 + 1, r.g3abb i j k l m n),
    (j * 2 + 1, k * 2 + 1, i * 2, m * 2 + 1, l * 2, n * 2 + 1, -r.g3abb i j k l m n),
    (j * 2 + 1, k * 2 + 1, i * 2, m * 2 + 1, n * 2 + 1, l * 2, r.g3abb i j k l m n),
    (i * 2 + 1, j * 2 + 1, k * 2 + 1, l * 2 + 1, m * 2 + 1, n * 2 + 1, r.g3bbb i j k l m n) ]

/-- The `data` of `file['gamma3']`: six nested loops over `range(nact)`. -/
def gamma3List (r : Rdms) : List G3Entry :=
  (List.range r.nact).flatMap fun i =>
    (List.range r.nact).flatMap fun j =>
      (List.range r.nact).flatMap fun k =>
        (List.range r.nact).flatMap fun l =>
          (List.range r.nact).flatMap fun m =>
            (List.range r.nact).flatMap fun n => g3Block r i j k l m n

/-- The `data` of `file['gamma1']`: `gamma1_a + gamma1_b`. -/
def gamma1List (r : Rdms) : List (Nat × Nat × ℚ) :=
  ((List.range r.nact).flatMap fun i =>
    (List.range r.nact).map fun j => (i * 2, j * 2, r.g1a i j)) ++
  ((List.range r.nact).flatMap fun i =>
    (List.range r.nact).map fun j => (i * 2 + 1, j * 2 + 1, r.g1b i j))

/-- The `data` of `file['gamma2']`: four nested loops appending the same
six-row spin block as the two-electron integrals, over `g2aa/g2ab/g2bb`. -/
def gamma2List (r : Rdms) : List (Nat × Nat × Nat × Nat × ℚ) :=
  (List.range r.nact).flatMap fun i =>
    (List.range r.nact).flatMap fun j =>
      (List.range r.nact).flatMap fun k =>
        (List.range r.nact).flatMap fun l =>
          [ (i * 2, j * 2, k * 2, l * 2, r.g2aa i j k l),
            (i * 2, j * 2 + 1, k * 2, l * 2 + 1, r.g2ab i j k l),
            (i * 2, j * 2 + 1, l * 2 + 1, k * 2, -r.g2ab i j k l),
            (j * 2 + 1, i * 2, k * 2, l * 2 + 1, -r.g2ab i j k l),
            (j * 2 + 1, i * 2, l * 2 + 1, k * 2, r.g2ab i j k l),
            (i * 2 + 1, j * 2 + 1, k * 2 + 1, l * 2 + 1, r.g2bb i j k l) ]

/-- The RDM exchange record built by `write_external_rdm_file` (the `data`
parts; `energy` is overwritten once per state of `state_energies_map`, so the
last state's first root energy is what remains; `gamma3` is present only when
`max_rdm_level == 3`). -/
structure RdmRecord where
  energy : Option ℚ
  gamma1 : List (Nat × Nat × ℚ)
  gamma2 : List (Nat × Nat × Nat × Nat × ℚ)
  gamma3 : Option (List G3Entry)

/-- `write_external_rdm_file` as a record producer. -/
def writeExternalRdmFile (solver : ActiveSpaceSolver)
    (state_weights_map : List (StateInfo × List (Nat × ℚ))) (max_rdm_level : Nat) :
    RdmRecord :=
  let r := solver.compute_average_rdms state_weights_map max_rdm_level
  { energy := (solver.state_energies.getLast?).bind fun se => se.2.get? 0
    gamma1 := gamma1List r
    gamma2 := gamma2List r
    gamma3 := if max_rdm_level = 3 then some (gamma3List r) else none }

/-- Index predicate on a two-electron entry: its four spin-orbital indices
equal `(a, b, c, d)`. -/
def idx4 (a b c d : Nat) : Nat × Nat × Nat × Nat × ℚ → Bool :=
  fun e => decide (e.1 = a ∧ e.2.1 = b ∧ e.2.2.1 = c ∧ e.2.2.2.1 = d)

/-- Index predicate on a one-electron entry: its two indices equal `(a, b)`. -/
def idx2 (a b : Nat) : Nat × Nat × ℚ → Bool :=
  fun e => decide (e.1 = a ∧ e.2.1 = b)

/-- Spec side, for comparison: the six rows the spec's two-electron table
lists for the spatial quadruple `(i, j, k, l)`. -/
def claimTeiRows (as : AsInts) (i j k l : Nat) : List (Nat × Nat × Nat × Nat × ℚ) :=
  [ (2 * i, 2 * j, 2 * k, 2 * l, as.tei_aa i j k l),
    (2 * i, 2 * j + 1, 2 * k, 2 * l + 1, as.tei_ab i j k l),
    (2 * i, 2 * j + 1, 2 * l + 1, 2 * k, -as.tei_ab i j k l),
    (2 * j + 1, 2 * i, 2 * k, 2 * l + 1, -as.tei_ab i j k l),
    (2 * j + 1, 2 * i, 2 * l + 1, 2 * k, as.tei_ab i j k l),
    (2 * i + 1, 2 * j + 1, 2 * k + 1, 2 * l + 1, as.tei_bb i j k l) ]

/-- Exchange of the first pair of spin-orbital indices of a two-electron
entry. -/
def swap12 (e : Nat × Nat × Nat × Nat × ℚ) : Nat × Nat × Nat × Nat × ℚ :=
  (e.2.1, e.1, e.2.2.1, e.2.2.2.1, e.2.2.2.2)

/-- Exchange of the second pair of spin-orbital indices. -/
def swap34 (e : Nat × Nat × Nat × Nat × ℚ) : Nat × Nat × Nat × Nat × ℚ :=
  (e.1, e.2.1, e.2.2.2.1, e.2.2.1, e.2.2.2.2)

/-- Negate the value carried by a two-electron entry. -/
def negVal (e : Nat × Nat × Nat × Nat × ℚ) : Nat × Nat × Nat × Nat × ℚ :=
  (e.1, e.2.1, e.2.2.1, e.2.2.2.1, -e.2.2.2.2)

/-- Number of beta (odd) indices among the three creation indices of a
rank-3 entry. -/
def creationBetas (e : G3Entry) : Nat :=
  e.1 % 2 + e.2.1 % 2 + e.2.2.1 % 2

/-- Number of beta (odd) indices among the three annihilation indices of a
rank-3 entry. -/
def annihilationBetas (e : G3Entry) : Nat :=
  e.2.2.2.1 % 2 + e.2.2.2.2.1 % 2 + e.2.2.2.2.2.1 % 2

/-- The aaa sector: no beta index on either side. -/
def isAaa (e : G3Entry) : Bool :=
  decide (creationBetas e = 0 ∧ annihilationBetas e = 0)

/-- The aab sector: one beta index on each side. -/
def isAab (e : G3Entry) : Bool :=
  decide (creationBetas e = 1 ∧ annihilationBetas e = 1)

/-- The abb sector: two beta indices on each side. -/
def isAbb (e : G3Entry) : Bool :=
  decide (creationBetas e = 2 ∧ annihilationBetas e = 2)

/-- The bbb sector: three beta indices on each side. -/
def isBbb (e : G3Entry) : Bool :=
  decide (creationBetas e = 3 ∧ annihilationBetas e = 3)

/-- Insert `x` so that it ends up at position `p` of the resulting list. -/
def insertAt (x : Nat) (p : Nat) (l : List Nat) : List Nat :=
  l.take p ++ x :: l.drop p

/-- Sign of the fermionic transposition that moves an operator from a slot of
parity `p` (measured as displacement from its canonical slot) to its target:
`+1` for an even number of transpositions, `-1` for an odd number. -/
def tsign (p : Nat) : ℚ := if p % 2 = 0 then 1 else -1

/-- Assemble a rank-3 entry from a creation index triple, an annihilation
index triple and a value. -/
def mk6 (c a : List Nat) (v : ℚ) : G3Entry :=
  (c.getD 0 0, c.getD 1 0, c.getD 2 0, a.getD 0 0, a.getD 1 0, a.getD 2 0, v)

/-- Spec side, for comparison: the nine aab-sector rows obtained by placing
the single beta creation operator (canonically in the last creation slot) and
the single beta annihilation operator (canonically in the last annihilation
slot) in each of the three slots independently, each row signed by the parity
of the implied transposition. -/
def claimAabRows (r : Rdms) (i j k l m n : Nat) : List G3Entry :=
  [2, 1, 0].flatMap fun cp => [2, 1, 0].map fun ap =>
    mk6 (insertAt (k * 2 + 1) cp [i * 2, j * 2])
      (insertAt (n * 2 + 1) ap [l * 2, m * 2])
      (tsign cp * tsign ap * r.g3aab i j k l m n)

/-- Spec side, for comparison: the nine abb-sector rows obtained by placing
the single alpha creation operator (canonically in the first creation slot)
and the single alpha annihilation operator (canonically in the first
annihilation slot) in each of the three slots independently, signed by
transposition parity. -/
def claimAbbRows (r : Rdms) (i j k l m n : Nat) : List G3Entry :=
  [0, 1, 2].flatMap fun cp => [0, 1, 2].map fun ap =>
    mk6 (insertAt (i * 2) cp [j * 2 + 1, k * 2 + 1])
      (insertAt (l * 2) ap [m * 2 + 1, n * 2 + 1])
      (tsign cp * tsign ap * r.g3abb i j k l m n)

/-! ### Generic filtering lemmas for the nested-loop lists -/

theorem filter_flatMap_eq_nil {α E : Type} (p : E → Bool) (g : α → List E) (L : List α)
    (h : ∀ x ∈ L, (g x).filter p = []) : (L.flatMap g).filter p = [] := by
  rw [List.filter_eq_nil_iff]
  intro e he
  obtain ⟨x, hx, hex⟩ := List.mem_flatMap.1 he
  exact (List.filter_eq_nil_iff.1 (h x hx)) e hex

theorem filter_flatMap_range_single {E : Type} (p : E → Bool) (g : Nat → List E) :
    ∀ n i0 : Nat, i0 < n → (∀ i, i < n → i ≠ i0 → (g i).filter p = []) →
      ((List.range n).flatMap g).filter p = (g i0).filter p := by
  intro n
  induction n with
  | zero => intro i0 hi0 _; omega
  | succ n ih =>
    intro i0 hi0 hz
    rw [List.range_succ, List.flatMap_append, List.filter_append]
    by_cases h : i0 = n
    · subst h
      have h1 : ((List.range i0).flatMap g).filter p = [] :=
        filter_flatMap_eq_nil p g _ fun x hx =>
          hz x (by have := List.mem_range.1 hx; omega) (by have := List.mem_range.1 hx; omega)
      rw [h1]
      simp [List.flatMap_cons]
    · have h2 : (([n] : List Nat).flatMap g).filter p = [] := by
        have hn : (g n).filter p = [] := hz n (Nat.lt_succ_self n) fun he => h he.symm
        simpa [List.flatMap_cons] using hn
      rw [h2, List.append_nil]
      exact ih i0 (by omega) fun i h1 h2 => hz i (by omega) h2

theorem filter_map_range_single {E : Type} (p : E → Bool) (f : Nat → E) :
    ∀ n j0 : Nat, j0 < n → p (f j0) = true → (∀ j, j < n → j ≠ j0 → p (f j) = false) →
      ((List.range n).map f).filter p = [f j0] := by
  intro n
  induction n with
  | zero => intro j0 hj0 _ _; omega
  | succ n ih =>
    intro j0 hj0 ht hf
    rw [List.range_succ, List.map_append, List.filter_append]
    by_cases h : j0 = n
    · subst h
      have h1 : ((List.range j0).map f).filter p = [] := by
        rw [List.filter_eq_nil_iff]
        intro e he
        obtain ⟨x, hx, rfl⟩ := List.mem_map.1 he
        have hx' := List.mem_range.1 hx
        simp [hf x (by omega) (by omega)]
      rw [h1]
      simp [ht]
    · have h2 : (([n] : List Nat).map f).filter p = [] := by
        have hn : p (f n) = false := hf n (Nat.lt_succ_self n) fun he => h he.symm
        simp [hn]
      rw [h2, List.append_nil]
      exact ih j0 (by omega) ht fun i h1 h2 => hf i (by omega) h2

theorem filter_grid4_single {E : Type} (p : E → Bool) (g : Nat → Nat → Nat → Nat → List E)
    (n i0 j0 k0 l0 : Nat) (hi : i0 < n) (hj : j0 < n) (hk : k0 < n) (hl : l0 < n)
    (hz : ∀ i j k l, i < n → j < n → k < n → l < n →
      ¬(i = i0 ∧ j = j0 ∧ k = k0 ∧ l = l0) → (g i j k l).filter p = []) :
    (((List.range n).flatMap fun i => (List.range n).flatMap fun j =>
      (List.range n).flatMap fun k => (List.range n).flatMap fun l => g i j k l).filter p) =
    (g i0 j0 k0 l0).filter p := by
  have hL : ∀ i j k, i < n → j < n → k < n → ¬(i = i0 ∧ j = j0 ∧ k = k0) →
      (((List.range n).flatMap fun l => g i j k l).filter p) = [] := by
    intro i j k hi' hj' hk' hne
    refine filter_flatMap_eq_nil p _ _ fun l hlmem => ?_
    exact hz i j k l hi' hj' hk' (List.mem_range.1 hlmem) (by tauto)
  have hK : ∀ i j, i < n → j < n → ¬(i = i0 ∧ j = j0) →
      (((List.range n).flatMap fun k =>
        (List.range n).flatMap fun l => g i j k l).filter p) = [] := by
    intro i j hi' hj' hne
    refine filter_flatMap_eq_nil p _ _ fun k hkmem => ?_
    exact hL i j k hi' hj' (List.mem_range.1 hkmem) (by tauto)
  have hJ : ∀ i, i < n → i ≠ i0 →
      (((List.range n).flatMap fun j => (List.range n).flatMap fun k =>
        (List.range n).flatMap fun l => g i j k l).filter p) = [] := by
    intro i hi' hne
    refine filter_flatMap_eq_nil p _ _ fun j hjmem => ?_
    exact hK i j hi' (List.mem_range.1 hjmem) (by tauto)
  rw [filter_flatMap_range_single p _ n i0 hi hJ]
  rw [filter_flatMap_range_single p _ n j0 hj
    (fun j hj' hne => hK i0 j hi hj' (by tauto))]
  rw [filter_flatMap_range_single p _ n k0 hk
    (fun k hk' hne => hL i0 j0 k hi hj hk' (by tauto))]
  exact filter_flatMap_range_single p _ n l0 hl
    (fun l hl' hne => hz i0 j0 k0 l hi hj hk hl' (by tauto))

theorem teiList_filter_single (as : AsInts) (p : (Nat × Nat × Nat × Nat × ℚ) → Bool)
    (i j k l : Nat) (hi : i < as.nmo) (hj : j < as.nmo) (hk : k < as.nmo) (hl : l < as.nmo)
    (hz : ∀ i' j' k' l', i' < as.nmo → j' < as.nmo → k' < as.nmo → l' < as.nmo →
      ¬(i' = i ∧ j' = j ∧ k' = k ∧ l' = l) → (teiBlock as i' j' k' l').filter p = []) :
    (teiList as).filter p = (teiBlock as i j k l).filter p :=
  filter_grid4_single p (teiBlock as) as.nmo i j k l hi hj hk hl hz

/-- The six rows the code emits at a quadruple are index-for-index the six
rows the spec's table lists. -/
theorem teiBlock_eq_claim (as : AsInts) (i j k l : Nat) :
    teiBlock as i j k l = claimTeiRows as i j k l := by
  simp [teiBlock, claimTeiRows, Nat.mul_comm]

theorem two_mul_eq_two_mul (a b : Nat) : 2 * a = 2 * b ↔ a = b := by omega

theorem two_mul_ne_odd (a b : Nat) : ¬(2 * a = 2 * b + 1) := by omega

theorem odd_ne_two_mul (a b : Nat) : ¬(2 * a + 1 = 2 * b) := by omega

theorem odd_eq_odd (a b : Nat) : 2 * a + 1 = 2 * b + 1 ↔ a = b := by omega

/-- A small concrete provider used to instantiate the theorems that carry
hypotheses. -/
def asW : AsInts :=
  { nmo := 1
    mo_symmetry := [0]
    frozen_core_energy := 1
    scalar_energy := 1/2
    nuclear_repulsion_energy := 1/4
    oei_a := fun _ _ => 1
    oei_b := fun _ _ => 2
    tei_aa := fun _ _ _ _ => 3
    tei_ab := fun _ _ _ _ => 5
    tei_bb := fun _ _ _ _ => 7
    slater_rules := fun _ _ => 9 }

/-- A concrete state used with `asW`. -/
def stW : StateInfo := { irrep := 0, na := 1, nb := 0 }

/-- C1: for every spatial quadruple `(i,j,k,l)` with indices below `nmo`,
the `tei` field of the exchange record contains exactly one entry at each of
the six spin-orbital index tuples of the spec's table — aaaa `(2i,2j,2k,2l)`
with `tei_aa`, abab `(2i,2j+1,2k,2l+1)` with `+tei_ab`, abba
`(2i,2j+1,2l+1,2k)` with `-tei_ab`, baab `(2j+1,2i,2k,2l+1)` with `-tei_ab`,
baba `(2j+1,2i,2l+1,2k)` with `+tei_ab`, bbbb `(2i+1,2j+1,2k+1,2l+1)` with
`tei_bb` — and every entry of `tei` is one of the six rows of some in-range
quadruple, so no other entries exist for the quadruple. -/
theorem tei_six_entries_per_quadruple (as : AsInts) (st : StateInfo) (i j k l : Nat)
    (hi : i < as.nmo) (hj : j < as.nmo) (hk : k < as.nmo) (hl : l < as.nmo) :
    ((makeRecord as st).tei.filter (idx4 (2*i) (2*j) (2*k) (2*l)) =
      [(2*i, 2*j, 2*k, 2*l, as.tei_aa i j k l)]) ∧
    ((makeRecord as st).tei.filter (idx4 (2*i) (2*j+1) (2*k) (2*l+1)) =
      [(2*i, 2*j+1, 2*k, 2*l+1, as.tei_ab i j k l)]) ∧
    ((makeRecord as st).tei.filter (idx4 (2*i) (2*j+1) (2*l+1) (2*k)) =
      [(2*i, 2*j+1, 2*l+1, 2*k, -as.tei_ab i j k l)]) ∧
    ((makeRecord as st).tei.filter (idx4 (2*j+1) (2*i) (2*k) (2*l+1)) =
      [(2*j+1, 2*i, 2*k, 2*l+1, -as.tei_ab i j k l)]) ∧
    ((makeRecord as st).tei.filter (idx4 (2*j+1) (2*i) (2*l+1) (2*k)) =
      [(2*j+1, 2*i, 2*l+1, 2*k, as.tei_ab i j k l)]) ∧
    ((makeRecord as st).tei.filter (idx4 (2*i+1) (2*j+1) (2*k+1) (2*l+1)) =
      [(2*i+1, 2*j+1, 2*k+1, 2*l+1, as.tei_bb i j k l)]) ∧
    (∀ e ∈ (makeRecord as st).tei, ∃ i' j' k' l',
      i' < as.nmo ∧ j' < as.nmo ∧ k' < as.nmo ∧ l' < as.nmo ∧
      e ∈ claimTeiRows as i' j' k' l') := by
  have hz : ∀ a b c d : Nat, ∀ i' j' k' l', i' < as.nmo → j' < as.nmo → k' < as.nmo →
      l' < as.nmo →
      (∀ e ∈ teiBlock as i' j' k' l', idx4 a b c d e = true →
        (i' = i ∧ j' = j ∧ k' = k ∧ l' = l)) →
      ¬(i' = i ∧ j' = j ∧ k' = k ∧ l' = l) →
      (teiBlock as i' j' k' l').filter (idx4 a b c d) = [] := by
    intro a b c d i' j' k' l' _ _ _ _ himp hne
    rw [List.filter_eq_nil_iff]
    intro e he hpe
    exact hne (himp e he hpe)
  refine ⟨?_, ?_, ?_, ?_, ?_, ?_, ?_⟩
  · show (teiList as).filter _ = _
    rw [teiList_filter_single as _ i j k l hi hj hk hl
      (fun i' j' k' l' h1 h2 h3 h4 hne => hz _ _ _ _ i' j' k' l' h1 h2 h3 h4 (by
        intro e he hpe
        simp only [teiBlock, List.mem_cons, List.not_mem_nil, or_false] at he
        rcases he with rfl | rfl | rfl | rfl | rfl | rfl <;>
          simp only [idx4, decide_eq_true_eq] at hpe <;> omega) hne)]
    rw [teiBlock_eq_claim]
    simp [claimTeiRows, idx4, List.filter_cons,
      two_mul_eq_two_mul, two_mul_ne_odd, odd_ne_two_mul, odd_eq_odd]
  · show (teiList as).filter _ = _
    rw [teiList_filter_single as _ i j k l hi hj hk hl
      (fun i' j' k' l' h1 h2 h3 h4 hne => hz _ _ _ _ i' j' k' l' h1 h2 h3 h4 (by
        intro e he hpe
        simp only [teiBlock, List.mem_cons, List.not_mem_nil, or_false] at he
        rcases he with rfl | rfl | rfl | rfl | rfl | rfl <;>
          simp only [idx4, decide_eq_true_eq] at hpe <;> omega) hne)]
    rw [teiBlock_eq_claim]
    simp [claimTeiRows, idx4, List.filter_cons,
      two_mul_eq_two_mul, two_mul_ne_odd, odd_ne_two_mul, odd_eq_odd]
  · show (teiList as).filter _ = _
    rw [teiList_filter_single as _ i j k l hi hj hk hl
      (fun i' j' k' l' h1 h2 h3 h4 hne => hz _ _ _ _ i' j' k' l' h1 h2 h3 h4 (by
        intro e he hpe
        simp only [teiBlock, List.mem_cons, List.not_mem_nil, or_false] at he
        rcases he with rfl | rfl | rfl | rfl | rfl | rfl <;>
          simp only [idx4, decide_eq_true_eq] at hpe <;> omega) hne)]
    rw [teiBlock_eq_claim]
    simp [claimTeiRows, idx4, List.filter_cons,
      two_mul_eq_two_mul, two_mul_ne_odd, odd_ne_two_mul, odd_eq_odd]
  · show (teiList as).filter _ = _
    rw [teiList_filter_single as _ i j k l hi hj hk hl
      (fun i' j' k' l' h1 h2 h3 h4 hne => hz _ _ _ _ i' j' k' l' h1 h2 h3 h4 (by
        intro e he hpe
        simp only [teiBlock, List.mem_cons, List.not_mem_nil, or_false] at he
        rcases he with rfl | rfl | rfl | rfl | rfl | rfl <;>
          simp only [idx4, decide_eq_true_eq] at hpe <;> omega) hne)]
    rw [teiBlock_eq_claim]
    simp [claimTeiRows, idx4, List.filter_cons,
      two_mul_eq_two_mul, two_mul_ne_odd, odd_ne_two_mul, odd_eq_odd]
  · show (teiList as).filter _ = _
    rw [teiList_filter_single as _ i j k l hi hj hk hl
      (fun i' j' k' l' h1 h2 h3 h4 hne => hz _ _ _ _ i' j' k' l' h1 h2 h3 h4 (by
        intro e he hpe
        simp only [teiBlock, List.mem_cons, List.not_mem_nil, or_false] at he
        rcases he with rfl | rfl | rfl | rfl | rfl | rfl <;>
          simp only [idx4, decide_eq_true_eq] at hpe <;> omega) hne)]
    rw [teiBlock_eq_claim]
    simp [claimTeiRows, idx4, List.filter_cons,
      two_mul_eq_two_mul, two_mul_ne_odd, odd_ne_two_mul, odd_eq_odd]
  · show (teiList as).filter _ = _
    rw [teiList_filter_single as _ i j k l hi hj hk hl
      (fun i' j' k' l' h1 h2 h3 h4 hne => hz _ _ _ _ i' j' k' l' h1 h2 h3 h4 (by
        intro e he hpe
        simp only [teiBlock, List.mem_cons, List.not_mem_nil, or_false] at he
        rcases he with rfl | rfl | rfl | rfl | rfl | rfl <;>
          simp only [idx4, decide_eq_true_eq] at hpe <;> omega) hne)]
    rw [teiBlock_eq_claim]
    simp [claimTeiRows, idx4, List.filter_cons,
      two_mul_eq_two_mul, two_mul_ne_odd, odd_ne_two_mul, odd_eq_odd]
  · intro e he
    have he' : e ∈ teiList as := he
    simp only [teiList, List.mem_flatMap, List.mem_range] at he'
    obtain ⟨i', hi', j', hj', k', hk', l', hl', hmem⟩ := he'
    exact ⟨i', j', k', l', hi', hj', hk', hl', teiBlock_eq_claim as i' j' k' l' ▸ hmem⟩

/-- Witness for C1 at the concrete provider `asW`, quadruple `(0,0,0,0)`. -/
theorem tei_six_entries_per_quadruple_witness :
    0 < asW.nmo ∧
    (((makeRecord asW stW).tei.filter (idx4 (2*0) (2*0) (2*0) (2*0)) =
      [(2*0, 2*0, 2*0, 2*0, asW.tei_aa 0 0 0 0)]) ∧
    ((makeRecord asW stW).tei.filter (idx4 (2*0) (2*0+1) (2*0) (2*0+1)) =
      [(2*0, 2*0+1, 2*0, 2*0+1, asW.tei_ab 0 0 0 0)]) ∧
    ((makeRecord asW stW).tei.filter (idx4 (2*0) (2*0+1) (2*0+1) (2*0)) =
      [(2*0, 2*0+1, 2*0+1, 2*0, -asW.tei_ab 0 0 0 0)]) ∧
    ((makeRecord asW stW).tei.filter (idx4 (2*0+1) (2*0) (2*0) (2*0+1)) =
      [(2*0+1, 2*0, 2*0, 2*0+1, -asW.tei_ab 0 0 0 0)]) ∧
    ((makeRecord asW stW).tei.filter (idx4 (2*0+1) (2*0) (2*0+1) (2*0)) =
      [(2*0+1, 2*0, 2*0+1, 2*0, asW.tei_ab 0 0 0 0)]) ∧
    ((makeRecord asW stW).tei.filter (idx4 (2*0+1) (2*0+1) (2*0+1) (2*0+1)) =
      [(2*0+1, 2*0+1, 2*0+1, 2*0+1, asW.tei_bb 0 0 0 0)]) ∧
    (∀ e ∈ (makeRecord asW stW).tei, ∃ i' j' k' l',
      i' < asW.nmo ∧ j' < asW.nmo ∧ k' < asW.nmo ∧ l' < asW.nmo ∧
      e ∈ claimTeiRows asW i' j' k' l')) :=
  ⟨by decide,
   tei_six_entries_per_quadruple asW stW 0 0 0 0 (by decide) (by decide) (by decide) (by decide)⟩

/-- C7: the `oei` field holds exactly one entry at `(2i,2j)` carrying the
alpha value and exactly one at `(2i+1,2j+1)` carrying the beta value, and
every `oei` entry has both indices of the same parity (no mixed-spin pair). -/
theorem oei_two_entries_per_pair (as : AsInts) (st : StateInfo) (i j : Nat)
    (hi : i < as.nmo) (hj : j < as.nmo) :
    ((makeRecord as st).oei.filter (idx2 (2*i) (2*j)) = [(2*i, 2*j, as.oei_a i j)]) ∧
    ((makeRecord as st).oei.filter (idx2 (2*i+1) (2*j+1)) =
      [(2*i+1, 2*j+1, as.oei_b i j)]) ∧
    (∀ e ∈ (makeRecord as st).oei, e.1 % 2 = e.2.1 % 2) := by
  refine ⟨?_, ?_, ?_⟩
  · show (oeiList as).filter _ = _
    rw [oeiList, List.filter_append]
    have hB : (oeiBList as).filter (idx2 (2*i) (2*j)) = [] := by
      rw [List.filter_eq_nil_iff]
      intro e he
      simp only [oeiBList, List.mem_flatMap, List.mem_range, List.mem_map] at he
      obtain ⟨i', hi', j', hj', rfl⟩ := he
      simp only [idx2, decide_eq_true_eq]
      omega
    have hA : (oeiAList as).filter (idx2 (2*i) (2*j)) = [(2*i, 2*j, as.oei_a i j)] := by
      rw [oeiAList]
      rw [filter_flatMap_range_single _ _ as.nmo i hi (fun i' h1 h2 => by
        rw [List.filter_eq_nil_iff]
        intro e he
        obtain ⟨j', hj', rfl⟩ := List.mem_map.1 he
        simp only [idx2, decide_eq_true_eq]
        omega)]
      rw [filter_map_range_single _ _ as.nmo j hj
        (by simp only [idx2, decide_eq_true_eq]; omega)
        (fun j' h1 h2 => by simp only [idx2, decide_eq_false_iff_not]; omega)]
      simp [Nat.mul_comm]
    rw [hA, hB, List.append_nil]
  · show (oeiList as).filter _ = _
    rw [oeiList, List.filter_append]
    have hA : (oeiAList as).filter (idx2 (2*i+1) (2*j+1)) = [] := by
      rw [List.filter_eq_nil_iff]
      intro e he
      simp only [oeiAList, List.mem_flatMap, List.mem_range, List.mem_map] at he
      obtain ⟨i', hi', j', hj', rfl⟩ := he
      simp only [idx2, decide_eq_true_eq]
      omega
    have hB : (oeiBList as).filter (idx2 (2*i+1) (2*j+1)) =
        [(2*i+1, 2*j+1, as.oei_b i j)] := by
      rw [oeiBList]
      rw [filter_flatMap_range_single _ _ as.nmo i hi (fun i' h1 h2 => by
        rw [List.filter_eq_nil_iff]
        intro e he
        obtain ⟨j', hj', rfl⟩ := List.mem_map.1 he
        simp only [idx2, decide_eq_true_eq]
        omega)]
      rw [filter_map_range_single _ _ as.nmo j hj
        (by simp only [idx2, decide_eq_true_eq]; omega)
        (fun j' h1 h2 => by simp only [idx2, decide_eq_false_iff_not]; omega)]
      simp [Nat.mul_comm]
    rw [hA, hB, List.nil_append]
  · intro e he
    have he' : e ∈ oeiList as := he
    simp only [oeiList, List.mem_append, oeiAList, oeiBList, List.mem_flatMap,
      List.mem_range, List.mem_map] at he'
    rcases he' with ⟨i', hi', j', hj', rfl⟩ | ⟨i', hi', j', hj', rfl⟩ <;>
      dsimp only <;> omega

/-- Witness for C7 at the concrete provider `asW`, pair `(0,0)`. -/
theorem oei_two_entries_per_pair_witness :
    0 < asW.nmo ∧
    (((makeRecord asW stW).oei.filter (idx2 (2*0) (2*0)) =
      [(2*0, 2*0, asW.oei_a 0 0)]) ∧
    ((makeRecord asW stW).oei.filter (idx2 (2*0+1) (2*0+1)) =
      [(2*0+1, 2*0+1, asW.oei_b 0 0)]) ∧
    (∀ e ∈ (makeRecord asW stW).oei, e.1 % 2 = e.2.1 % 2)) :=
  ⟨by decide, oei_two_entries_per_pair asW stW 0 0 (by decide) (by decide)⟩

theorem dupList_length (l : List Nat) : (l.flatMap fun s => [s, s]).length = 2 * l.length := by
  induction l with
  | nil => rfl
  | cons x xs ih => simp only [List.flatMap_cons, List.length_append, List.length_cons,
      List.length_nil, ih]; omega

theorem dupList_get (l : List Nat) : ∀ k, k < l.length →
    (l.flatMap fun s => [s, s]).get? (2*k) = l.get? k ∧
    (l.flatMap fun s => [s, s]).get? (2*k+1) = l.get? k := by
  induction l with
  | nil => intro k hk; simp at hk
  | cons x xs ih =>
    intro k hk
    cases k with
    | zero => simp [List.flatMap_cons]
    | succ k' =>
      have h2 : 2 * (k' + 1) = 2 * k' + 1 + 1 := by omega
      rw [List.flatMap_cons, h2]
      have := ih k' (by simpa using hk)
      simpa [List.cons_append, List.get?_cons_succ] using this

theorem spinList_eq (n : Nat) : spinList n = (List.range (2 * n)).map fun m => m % 2 := by
  induction n with
  | zero => rfl
  | succ n ih =>
    have h2 : 2 * (n + 1) = 2 * n + 1 + 1 := by omega
    rw [spinList, List.range_succ, List.flatMap_append, h2, List.range_succ,
      List.range_succ, List.map_append, List.map_append]
    rw [spinList] at ih
    rw [ih]
    have e0 : (2 * n) % 2 = 0 := by omega
    have e1 : (2 * n + 1) % 2 = 1 := by omega
    simp [e0, e1]

/-- C9: `nso` equals `2 * nmo`; `symmetry` has length `2 * nmo` with each
spatial label appearing twice consecutively; `spin` has length `2 * nmo`
with 0 at even positions and 1 at odd positions. -/
theorem record_metadata (as : AsInts) (st : StateInfo)
    (hsym : as.mo_symmetry.length = as.nmo) :
    (makeRecord as st).nso = 2 * as.nmo ∧
    (makeRecord as st).symmetry.length = 2 * as.nmo ∧
    (∀ k, k < as.nmo →
      (makeRecord as st).symmetry.get? (2*k) = as.mo_symmetry.get? k ∧
      (makeRecord as st).symmetry.get? (2*k+1) = as.mo_symmetry.get? k) ∧
    (makeRecord as st).spin.length = 2 * as.nmo ∧
    (∀ m, m < 2 * as.nmo → (makeRecord as st).spin.get? m = some (m % 2)) := by
  refine ⟨rfl, ?_, ?_, ?_, ?_⟩
  · show (symmetryList as).length = 2 * as.nmo
    rw [symmetryList, dupList_length, hsym]
  · intro k hk
    exact dupList_get as.mo_symmetry k (by omega)
  · show (spinList as.nmo).length = 2 * as.nmo
    rw [spinList_eq, List.length_map, List.length_range]
  · intro m hm
    show (spinList as.nmo).get? m = some (m % 2)
    rw [spinList_eq, List.get?_map, List.get?_range hm]
    rfl

/-- Witness for C9 at the concrete provider `asW`. -/
theorem record_metadata_witness :
    asW.mo_symmetry.length = asW.nmo ∧
    ((makeRecord asW stW).nso = 2 * asW.nmo ∧
    (makeRecord asW stW).symmetry.length = 2 * asW.nmo ∧
    (∀ k, k < asW.nmo →
      (makeRecord asW stW).symmetry.get? (2*k) = asW.mo_symmetry.get? k ∧
      (makeRecord asW stW).symmetry.get? (2*k+1) = asW.mo_symmetry.get? k) ∧
    (makeRecord asW stW).spin.length = 2 * asW.nmo ∧
    (∀ m, m < 2 * asW.nmo → (makeRecord asW stW).spin.get? m = some (m % 2))) :=
  ⟨by decide, record_metadata asW stW (by decide)⟩

/-- C8: applying the first-pair index swap to the abab row and negating its
value yields index-for-index the baab row; applying the second-pair swap and
negating yields the abba row. -/
theorem tei_abab_antisymmetry (as : AsInts) (i j k l : Nat) :
    negVal (swap12 ((teiBlock as i j k l).getD 1 default)) =
      (teiBlock as i j k l).getD 3 default ∧
    negVal (swap34 ((teiBlock as i j k l).getD 1 default)) =
      (teiBlock as i j k l).getD 2 default :=
  ⟨rfl, rfl⟩

/-- C10: `read_external_active_space_file` returns `False` on every input;
it never imports a solver result. -/
theorem read_external_always_false (as : AsInts) (sm : List (StateInfo × Nat)) :
    readExternalActiveSpaceFile as sm = false := rfl

instance : DecidableEq (Except PyErr ℚ)
  | .ok x, .ok y =>
    if h : x = y then .isTrue (congrArg Except.ok h)
    else .isFalse fun hh => h (Except.ok.inj hh)
  | .error x, .error y =>
    if h : x = y then .isTrue (congrArg Except.error h)
    else .isFalse fun hh => h (Except.error.inj hh)
  | .ok _, .error _ => .isFalse fun hh => Except.noConfusion hh
  | .error _, .ok _ => .isFalse fun hh => Except.noConfusion hh

/-- A second concrete state, distinct from `stW` (two alpha electrons). -/
def stW2 : StateInfo := { irrep := 0, na := 2, nb := 0 }

/-- C4 (amended): one exchange record is constructed per entry of the state
map, in iteration order, but every record is written to the same `json_file`
path, so after the call that single path holds the record of the
last-iterated entry and no other path holds anything. -/
theorem one_write_per_entry_last_persists (as : AsInts) (sm : List (StateInfo × Nat))
    (jf : String) :
    writeExternalActiveSpaceFile as sm jf = (sm.map fun sn => (jf, makeRecord as sn.1)) ∧
    (∀ p, persistedFile (writeExternalActiveSpaceFile as sm jf) p =
      if p = jf then (sm.map fun sn => makeRecord as sn.1).getLast? else none) := by
  refine ⟨rfl, fun p => ?_⟩
  by_cases hp : p = jf
  · subst hp
    rw [if_pos rfl, persistedFile]
    have hall : (writeExternalActiveSpaceFile as sm p).filter (fun e => decide (e.1 = p)) =
        writeExternalActiveSpaceFile as sm p := by
      rw [List.filter_eq_self]
      intro e he
      simp only [writeExternalActiveSpaceFile, List.mem_map] at he
      obtain ⟨sn, _, rfl⟩ := he
      simp
    rw [hall, writeExternalActiveSpaceFile, List.getLast?_map, List.getLast?_map,
      Option.map_map]
    rfl
  · rw [if_neg hp, persistedFile]
    have hnil : (writeExternalActiveSpaceFile as sm jf).filter (fun e => decide (e.1 = p)) =
        [] := by
      rw [List.filter_eq_nil_iff]
      intro e he
      simp only [writeExternalActiveSpaceFile, List.mem_map] at he
      obtain ⟨sn, _, rfl⟩ := he
      simp only [decide_eq_true_eq]
      exact fun hh => hp hh.symm
    rw [hnil]
    rfl

/-- C4 counterexample: for a two-entry state map the first entry's record is
persisted at no path after the call — both records are written to the same
file and the second overwrites the first (`makeRecord asW stW` and
`makeRecord asW stW2` differ in their `na` field). -/
theorem one_record_per_entry_counterexample :
    ¬ ∀ sn ∈ [(stW, 1), (stW2, 1)], ∃ p,
      persistedFile (writeExternalActiveSpaceFile asW [(stW, 1), (stW2, 1)] "forte_ints.json")
        p = some (makeRecord asW sn.1) := by
  intro h
  obtain ⟨p, hp⟩ := h (stW, 1) (by simp)
  by_cases hpj : p = "forte_ints.json"
  · subst hpj
    have hval : persistedFile
        (writeExternalActiveSpaceFile asW [(stW, 1), (stW2, 1)] "forte_ints.json")
        "forte_ints.json" = some (makeRecord asW stW2) := rfl
    rw [hval] at hp
    exact absurd (congrArg ExchangeRecord.na (Option.some.inj hp)) (by decide)
  · have hnil : ((writeExternalActiveSpaceFile asW [(stW, 1), (stW2, 1)]
        "forte_ints.json").filter (fun e => decide (e.1 = p))) = [] := by
      rw [List.filter_eq_nil_iff]
      intro e he
      simp only [writeExternalActiveSpaceFile, List.map_cons, List.map_nil, List.mem_cons,
        List.not_mem_nil, or_false] at he
      rcases he with rfl | rfl <;> simp only [decide_eq_true_eq] <;>
        exact fun hh => hpj hh.symm
    rw [persistedFile, hnil] at hp
    simp at hp

/-- The exact eigen-decomposition stand-in used for witnesses: on an `n × n`
matrix it returns the `n` diagonal entries (for the `1 × 1` and empty
matrices arising below this is the true ascending spectrum). -/
def eighW : Nat → (Nat → Nat → ℚ) → List ℚ :=
  fun n M => (List.range n).map fun I => M I I

/-- C2 (amended): when the eigen-decomposition primitive returns a nonempty
ascending spectrum for the assembled determinant-space Hamiltonian, the
energy reported by `make_hamiltonian` is that lowest eigenvalue plus the
provider's scalar energy plus its nuclear-repulsion energy; the frozen-core
energy is not included. -/
theorem ground_state_energy_formula (eigh : Nat → (Nat → Nat → ℚ) → List ℚ)
    (as : AsInts) (st : StateInfo) (e0 : ℚ)
    (h0 : (hamEvals eigh as st).get? 0 = some e0)
    (hmin : ∀ x ∈ hamEvals eigh as st, e0 ≤ x) :
    makeHamiltonian eigh as st = .ok (e0 + as.scalar_energy + as.nuclear_repulsion_energy) := by
  rw [makeHamiltonian, h0]

/-- Witness for C2 (amended) at `asW`, `stW`: the Hamiltonian is the `1 × 1`
matrix `[[9]]`, whose spectrum is `[9]`. -/
theorem ground_state_energy_formula_witness :
    (hamEvals eighW asW stW).get? 0 = some 9 ∧
    (∀ x ∈ hamEvals eighW asW stW, (9:ℚ) ≤ x) ∧
    makeHamiltonian eighW asW stW =
      .ok (9 + asW.scalar_energy + asW.nuclear_repulsion_energy) :=
  ⟨rfl,
   fun x hx => by
     have hx' : x ∈ [(9:ℚ)] := hx
     rw [List.mem_singleton.mp hx'],
   ground_state_energy_formula eighW asW stW 9 rfl (fun x hx => by
     have hx' : x ∈ [(9:ℚ)] := hx
     rw [List.mem_singleton.mp hx'])⟩

/-- C2 counterexample: at `asW` (frozen-core energy 1, scalar energy 1/2,
nuclear repulsion 1/4) the assembled Hamiltonian is `[[9]]` with lowest
eigenvalue 9, and the reported energy is `9 + 1/2 + 1/4`, not the claim's
`9 + 1 + 1/2 + 1/4`: the frozen-core energy is not added. -/
theorem ground_state_energy_counterexample :
    hamEvals eighW asW stW = [9] ∧
    makeHamiltonian eighW asW stW =
      .ok (9 + asW.scalar_energy + asW.nuclear_repulsion_energy) ∧
    makeHamiltonian eighW asW stW ≠
      .ok (9 + asW.frozen_core_energy + asW.scalar_energy +
        asW.nuclear_repulsion_energy) := by
  refine ⟨rfl, rfl, fun h => ?_⟩
  rw [show makeHamiltonian eighW asW stW =
    Except.ok (9 + asW.scalar_energy + asW.nuclear_repulsion_energy) from rfl] at h
  have h2 := Except.ok.inj h
  simp only [asW] at h2
  norm_num at h2

theorem combinations_eq_nil : ∀ (k : Nat) (l : List Nat), l.length < k →
    combinations k l = [] := by
  intro k l
  induction l generalizing k with
  | nil =>
    intro hk
    match k, hk with
    | k' + 1, _ => rfl
  | cons x xs ih =>
    intro hk
    match k, hk with
    | k' + 1, hk =>
      have h1 : combinations k' xs = [] := ih k' (by simp at hk; omega)
      have h2 : combinations (k' + 1) xs = [] := ih (k' + 1) (by simp at hk; omega)
      rw [combinations, h1, h2, List.map_nil, List.nil_append]

/-- C5 (amended): if `na` or `nb` exceeds `nmo` the determinant enumeration
is empty and `make_hamiltonian` fails — but with an index-out-of-range error
raised when `evals[0]` is read from the empty spectrum (assuming the
eigen-decomposition returns one eigenvalue per matrix row), not with an
explicit invalid-electron-count error: no such check exists in the code. -/
theorem excess_electron_count_fails (eigh : Nat → (Nat → Nat → ℚ) → List ℚ)
    (as : AsInts) (st : StateInfo)
    (heigh : ∀ M : Nat → Nat → ℚ, eigh 0 M = [])
    (hcount : as.nmo < st.na ∨ as.nmo < st.nb) :
    makeHamiltonian eigh as st = .error .indexError := by
  have hdets : enumerateDets as st = [] := by
    rcases hcount with h | h
    · rw [enumerateDets, combinations_eq_nil st.na _ (by simpa using h)]
      rfl
    · rw [enumerateDets, combinations_eq_nil st.nb _ (by simpa using h)]
      simp
  simp [makeHamiltonian, hamEvals, hdets, heigh]

/-- Witness for C5 (amended) at `asW` (`nmo = 1`), `stW2` (`na = 2`). -/
theorem excess_electron_count_fails_witness :
    (∀ M : Nat → Nat → ℚ, eighW 0 M = []) ∧ (asW.nmo < stW2.na ∨ asW.nmo < stW2.nb) ∧
    makeHamiltonian eighW asW stW2 = .error .indexError :=
  ⟨fun _ => rfl, by decide,
   excess_electron_count_fails eighW asW stW2 (fun _ => rfl) (by decide)⟩

/-- C5 counterexample: with `na = 2 > nmo = 1` the call fails via the index
error from `evals[0]` on the empty spectrum; it is not an
invalid-electron-count error, and no invalid-electron-count check exists
during enumeration (the enumeration just yields the empty list). -/
theorem excess_electron_count_counterexample :
    makeHamiltonian eighW asW stW2 = .error .indexError ∧
    makeHamiltonian eighW asW stW2 ≠ .error .invalidElectronCount := by
  refine ⟨by decide, by decide⟩

theorem par_even (a : Nat) : a * 2 % 2 = 0 := Nat.mul_mod_left a 2

theorem par_odd (a : Nat) : (a * 2 + 1) % 2 = 1 := by omega

theorem g3Block_length (r : Rdms) (i j k l m n : Nat) :
    (g3Block r i j k l m n).length = 20 := rfl

theorem g3Block_filter_aaa (r : Rdms) (i j k l m n : Nat) :
    (g3Block r i j k l m n).filter isAaa =
      [(i * 2, j * 2, k * 2, l * 2, m * 2, n * 2, r.g3aaa i j k l m n)] := by
  simp [g3Block, isAaa, creationBetas, annihilationBetas, List.filter_cons, par_even, par_odd]

theorem g3Block_filter_aab (r : Rdms) (i j k l m n : Nat) :
    (g3Block r i j k l m n).filter isAab = claimAabRows r i j k l m n := by
  simp [g3Block, claimAabRows, insertAt, mk6, tsign, isAab, creationBetas,
    annihilationBetas, List.filter_cons, par_even, par_odd]

theorem g3Block_filter_abb (r : Rdms) (i j k l m n : Nat) :
    (g3Block r i j k l m n).filter isAbb = claimAbbRows r i j k l m n := by
  simp [g3Block, claimAbbRows, insertAt, mk6, tsign, isAbb, creationBetas,
    annihilationBetas, List.filter_cons, par_even, par_odd]

theorem g3Block_filter_bbb (r : Rdms) (i j k l m n : Nat) :
    (g3Block r i j k l m n).filter isBbb =
      [(i * 2 + 1, j * 2 + 1, k * 2 + 1, l * 2 + 1, m * 2 + 1, n * 2 + 1,
        r.g3bbb i j k l m n)] := by
  simp [g3Block, isBbb, creationBetas, annihilationBetas, List.filter_cons,
    par_even, par_odd]

/-- C3 (amended): when the requested maximum RDM rank is 3, the `gamma3`
field is present and consists, for every spatial 6-tuple, of a block of
exactly 20 entries (not 24): 1 aaa entry, 9 aab entries, 9 abb entries and
1 bbb entry.  The aab (resp. abb) entries are the nine placements of the
single beta (resp. alpha) creation operator and annihilation operator into
the three creation and three annihilation slots independently, each signed
by the parity of the implied fermionic transposition, and the bbb entry
carries `g3bbb` at the 6-tuple.  Every `gamma3` entry comes from the block
of some in-range 6-tuple. -/
theorem gamma3_twenty_entries (solver : ActiveSpaceSolver)
    (swm : List (StateInfo × List (Nat × ℚ))) (i j k l m n : Nat)
    (hi : i < (solver.compute_average_rdms swm 3).nact)
    (hj : j < (solver.compute_average_rdms swm 3).nact)
    (hk : k < (solver.compute_average_rdms swm 3).nact)
    (hl : l < (solver.compute_average_rdms swm 3).nact)
    (hm : m < (solver.compute_average_rdms swm 3).nact)
    (hn : n < (solver.compute_average_rdms swm 3).nact) :
    (writeExternalRdmFile solver swm 3).gamma3 =
      some (gamma3List (solver.compute_average_rdms swm 3)) ∧
    (g3Block (solver.compute_average_rdms swm 3) i j k l m n).length = 20 ∧
    (g3Block (solver.compute_average_rdms swm 3) i j k l m n).filter isAaa =
      [(i * 2, j * 2, k * 2, l * 2, m * 2, n * 2,
        (solver.compute_average_rdms swm 3).g3aaa i j k l m n)] ∧
    (g3Block (solver.compute_average_rdms swm 3) i j k l m n).filter isAab =
      claimAabRows (solver.compute_average_rdms swm 3) i j k l m n ∧
    (claimAabRows (solver.compute_average_rdms swm 3) i j k l m n).length = 9 ∧
    (g3Block (solver.compute_average_rdms swm 3) i j k l m n).filter isAbb =
      claimAbbRows (solver.compute_average_rdms swm 3) i j k l m n ∧
    (claimAbbRows (solver.compute_average_rdms swm 3) i j k l m n).length = 9 ∧
    (g3Block (solver.compute_average_rdms swm 3) i j k l m n).filter isBbb =
      [(i * 2 + 1, j * 2 + 1, k * 2 + 1, l * 2 + 1, m * 2 + 1, n * 2 + 1,
        (solver.compute_average_rdms swm 3).g3bbb i j k l m n)] ∧
    (∀ e ∈ gamma3List (solver.compute_average_rdms swm 3), ∃ i' j' k' l' m' n',
      i' < (solver.compute_average_rdms swm 3).nact ∧
      j' < (solver.compute_average_rdms swm 3).nact ∧
      k' < (solver.compute_average_rdms swm 3).nact ∧
      l' < (solver.compute_average_rdms swm 3).nact ∧
      m' < (solver.compute_average_rdms swm 3).nact ∧
      n' < (solver.compute_average_rdms swm 3).nact ∧
      e ∈ g3Block (solver.compute_average_rdms swm 3) i' j' k' l' m' n') := by
  refine ⟨rfl, g3Block_length _ i j k l m n, g3Block_filter_aaa _ i j k l m n,
    g3Block_filter_aab _ i j k l m n, rfl, g3Block_filter_abb _ i j k l m n, rfl,
    g3Block_filter_bbb _ i j k l m n, ?_⟩
  intro e he
  simp only [gamma3List, List.mem_flatMap, List.mem_range] at he
  obtain ⟨i', hi', j', hj', k', hk', l', hl', m', hm', n', hn', hmem⟩ := he
  exact ⟨i', j', k', l', m', n', hi', hj', hk', hl', hm', hn', hmem⟩

/-- A concrete RDM bundle over one active orbital. -/
def rdmsC : Rdms :=
  { nact := 1
    g1a := fun _ _ => 1
    g1b := fun _ _ => 1
    g2aa := fun _ _ _ _ => 1
    g2ab := fun _ _ _ _ => 1
    g2bb := fun _ _ _ _ => 1
    g3aaa := fun _ _ _ _ _ _ => 1
    g3aab := fun _ _ _ _ _ _ => 2
    g3abb := fun _ _ _ _ _ _ => 3
    g3bbb := fun _ _ _ _ _ _ => 4 }

/-- A concrete active-space solver returning `rdmsC`. -/
def solverC : ActiveSpaceSolver :=
  { compute_average_rdms := fun _ _ => rdmsC
    state_energies := [] }

/-- Witness for C3 (amended) at `solverC` (`nact = 1`), 6-tuple
`(0,0,0,0,0,0)`. -/
theorem gamma3_twenty_entries_witness :
    0 < (solverC.compute_average_rdms [] 3).nact ∧
    ((writeExternalRdmFile solverC [] 3).gamma3 =
      some (gamma3List (solverC.compute_average_rdms [] 3)) ∧
    (g3Block (solverC.compute_average_rdms [] 3) 0 0 0 0 0 0).length = 20 ∧
    (g3Block (solverC.compute_average_rdms [] 3) 0 0 0 0 0 0).filter isAaa =
      [(0 * 2, 0 * 2, 0 * 2, 0 * 2, 0 * 2, 0 * 2,
        (solverC.compute_average_rdms [] 3).g3aaa 0 0 0 0 0 0)] ∧
    (g3Block (solverC.compute_average_rdms [] 3) 0 0 0 0 0 0).filter isAab =
      claimAabRows (solverC.compute_average_rdms [] 3) 0 0 0 0 0 0 ∧
    (claimAabRows (solverC.compute_average_rdms [] 3) 0 0 0 0 0 0).length = 9 ∧
    (g3Block (solverC.compute_average_rdms [] 3) 0 0 0 0 0 0).filter isAbb =
      claimAbbRows (solverC.compute_average_rdms [] 3) 0 0 0 0 0 0 ∧
    (claimAbbRows (solverC.compute_average_rdms [] 3) 0 0 0 0 0 0).length = 9 ∧
    (g3Block (solverC.compute_average_rdms [] 3) 0 0 0 0 0 0).filter isBbb =
      [(0 * 2 + 1, 0 * 2 + 1, 0 * 2 + 1, 0 * 2 + 1, 0 * 2 + 1, 0 * 2 + 1,
        (solverC.compute_average_rdms [] 3).g3bbb 0 0 0 0 0 0)] ∧
    (∀ e ∈ gamma3List (solverC.compute_average_rdms [] 3), ∃ i' j' k' l' m' n',
      i' < (solverC.compute_average_rdms [] 3).nact ∧
      j' < (solverC.compute_average_rdms [] 3).nact ∧
      k' < (solverC.compute_average_rdms [] 3).nact ∧
      l' < (solverC.compute_average_rdms [] 3).nact ∧
      m' < (solverC.compute_average_rdms [] 3).nact ∧
      n' < (solverC.compute_average_rdms [] 3).nact ∧
      e ∈ g3Block (solverC.compute_average_rdms [] 3) i' j' k' l' m' n')) :=
  ⟨by decide, gamma3_twenty_entries solverC [] 0 0 0 0 0 0
    (by decide) (by decide) (by decide) (by decide) (by decide) (by decide)⟩

/-- C3 counterexample: with one active orbital the whole `gamma3` list is
the block of the single spatial 6-tuple `(0,0,0,0,0,0)`, and it holds 20
entries, not the 24 the claim states. -/
theorem gamma3_not_24_entries :
    ((writeExternalRdmFile solverC [] 3).gamma3.getD []).length = 20 ∧
    ((writeExternalRdmFile solverC [] 3).gamma3.getD []).length ≠ 24 :=
  ⟨rfl, by decide⟩

theorem mem_combinations_sublist : ∀ {k : Nat} {l c : List Nat},
    c ∈ combinations k l → c.Sublist l := by
  intro k l
  induction l generalizing k with
  | nil =>
    intro c hc
    cases k with
    | zero => rw [combinations] at hc; simp at hc; subst hc; exact List.nil_sublist _
    | succ k' => rw [combinations] at hc; simp at hc
  | cons x xs ih =>
    intro c hc
    cases k with
    | zero => rw [combinations] at hc; simp at hc; subst hc; exact List.nil_sublist _
    | succ k' =>
      rw [combinations] at hc
      rcases List.mem_append.1 hc with h | h
      · obtain ⟨c', hc', rfl⟩ := List.mem_map.1 h
        exact List.Sublist.cons₂ x (ih hc')
      · exact List.Sublist.cons x (ih h)

theorem mem_combinations_length : ∀ {k : Nat} {l c : List Nat},
    c ∈ combinations k l → c.length = k := by
  intro k l
  induction l generalizing k with
  | nil =>
    intro c hc
    cases k with
    | zero => rw [combinations] at hc; simp at hc; subst hc; rfl
    | succ k' => rw [combinations] at hc; simp at hc
  | cons x xs ih =>
    intro c hc
    cases k with
    | zero => rw [combinations] at hc; simp at hc; subst hc; rfl
    | succ k' =>
      rw [combinations] at hc
      rcases List.mem_append.1 hc with h | h
      · obtain ⟨c', hc', rfl⟩ := List.mem_map.1 h
        simp [ih hc']
      · exact ih h

theorem length_combinations : ∀ (k : Nat) (l : List Nat),
    (combinations k l).length = Nat.choose l.length k := by
  intro k l
  induction l generalizing k with
  | nil =>
    cases k with
    | zero => rfl
    | succ k' => rfl
  | cons x xs ih =>
    cases k with
    | zero => rfl
    | succ k' =>
      rw [combinations, List.length_append, List.length_map, ih k', ih (k' + 1),
        List.length_cons, Nat.choose_succ_succ]

theorem nodup_combinations : ∀ (k : Nat) {l : List Nat}, l.Nodup →
    (combinations k l).Nodup := by
  intro k l
  induction l generalizing k with
  | nil =>
    intro _
    cases k with
    | zero => simp [combinations]
    | succ k' => simp [combinations]
  | cons x xs ih =>
    intro hnd
    obtain ⟨hx, hxs⟩ := List.nodup_cons.1 hnd
    cases k with
    | zero => simp [combinations]
    | succ k' =>
      rw [combinations]
      refine List.Nodup.append ?_ (ih (k' + 1) hxs) ?_
      · exact (ih k' hxs).map fun a b hab => by injection hab
      · intro a ha hb
        obtain ⟨c', hc', rfl⟩ := List.mem_map.1 ha
        exact hx ((mem_combinations_sublist hb).subset (List.mem_cons_self x c'))

theorem sorted_lex_combinations : ∀ (k : Nat) {l : List Nat},
    List.Pairwise (· < ·) l →
    List.Pairwise (List.Lex (· < ·)) (combinations k l) := by
  intro k l
  induction l generalizing k with
  | nil =>
    intro _
    cases k with
    | zero => simp [combinations]
    | succ k' => simp [combinations]
  | cons x xs ih =>
    intro hpw
    obtain ⟨hlt, hxs⟩ := List.pairwise_cons.1 hpw
    cases k with
    | zero => simp [combinations]
    | succ k' =>
      rw [combinations, List.pairwise_append]
      refine ⟨List.pairwise_map.2 (List.Pairwise.imp (fun h => List.Lex.cons h) (ih k' hxs)),
        ih (k' + 1) hxs, ?_⟩
      intro a ha b hb
      obtain ⟨c', hc', rfl⟩ := List.mem_map.1 ha
      cases b with
      | nil =>
        have := mem_combinations_length hb
        simp at this
      | cons y b' =>
        exact List.Lex.rel
          (hlt y ((mem_combinations_sublist hb).subset (List.mem_cons_self y b')))

theorem sublist_eq_of_perm : ∀ {l c₁ c₂ : List Nat}, l.Nodup →
    c₁.Sublist l → c₂.Sublist l → c₁.Perm c₂ → c₁ = c₂ := by
  intro l
  induction l with
  | nil =>
    intro c₁ c₂ _ h1 h2 _
    rw [List.sublist_nil.1 h1, List.sublist_nil.1 h2]
  | cons x xs ih =>
    intro c₁ c₂ hnd h1 h2 hp
    obtain ⟨hx, hxs⟩ := List.nodup_cons.1 hnd
    cases h1 with
    | cons _ h1' =>
      have hxc1 : x ∉ c₁ := fun hmem => hx (h1'.subset hmem)
      have hxc2 : x ∉ c₂ := fun hmem => hxc1 (hp.mem_iff.2 hmem)
      cases h2 with
      | cons _ h2' => exact ih hxs h1' h2' hp
      | cons₂ _ h2' => exact absurd (List.mem_cons_self _ _) hxc2
    | cons₂ _ h1' =>
      cases h2 with
      | cons _ h2' =>
        exact absurd (h2'.subset (hp.mem_iff.1 (List.mem_cons_self _ _))) hx
      | cons₂ _ h2' =>
        rw [ih hxs h1' h2' ((List.perm_cons x).1 hp)]


theorem combinations_toFinset_inj {k : Nat} {l : List Nat} (hnd : l.Nodup)
    {c₁ c₂ : List Nat} (h1 : c₁ ∈ combinations k l) (h2 : c₂ ∈ combinations k l)
    (h : c₁.toFinset = c₂.toFinset) : c₁ = c₂ :=
  sublist_eq_of_perm hnd (mem_combinations_sublist h1) (mem_combinations_sublist h2)
    (List.perm_of_nodup_nodup_toFinset_eq
      ((mem_combinations_sublist h1).nodup hnd) ((mem_combinations_sublist h2).nodup hnd) h)

theorem setBits_eq (l : List Nat) : ∀ s : Finset Nat, setBits s l = s ∪ l.toFinset := by
  induction l with
  | nil => intro s; simp [setBits]
  | cons x xs ih =>
    intro s
    show setBits (insert x s) xs = s ∪ (x :: xs).toFinset
    rw [ih (insert x s)]
    ext a
    simp
    try tauto

theorem detOf_alfa (astr bstr : List Nat) : (detOf astr bstr).alfa = astr.toFinset := by
  show setBits ∅ astr = _
  rw [setBits_eq]
  simp

theorem detOf_beta (astr bstr : List Nat) : (detOf astr bstr).beta = bstr.toFinset := by
  show setBits ∅ bstr = _
  rw [setBits_eq]
  simp

theorem length_enumerateDets (as : AsInts) (st : StateInfo) :
    (enumerateDets as st).length = Nat.choose as.nmo st.na * Nat.choose as.nmo st.nb := by
  rw [enumerateDets, List.length_flatMap]
  have hc : List.length ∘ (fun astr =>
      (combinations st.nb (List.range as.nmo)).map fun bstr => detOf astr bstr) =
      Function.const _ (combinations st.nb (List.range as.nmo)).length :=
    funext fun c => by simp [Function.const]
  rw [hc, List.map_const, List.sum_replicate, smul_eq_mul,
    length_combinations, length_combinations, List.length_range]

theorem nodup_enumerateDets (as : AsInts) (st : StateInfo) :
    (enumerateDets as st).Nodup := by
  rw [enumerateDets, List.nodup_flatMap]
  constructor
  · intro astr ha
    refine List.Nodup.map_on ?_ (nodup_combinations st.nb (List.nodup_range as.nmo))
    intro b1 hb1 b2 hb2 heq
    have hbeta : b1.toFinset = b2.toFinset := by
      have := congrArg Determinant.beta heq
      rwa [detOf_beta, detOf_beta] at this
    exact combinations_toFinset_inj (List.nodup_range as.nmo) hb1 hb2 hbeta
  · refine List.Pairwise.imp_of_mem ?_
      ((nodup_combinations st.na (List.nodup_range as.nmo)))
    intro a1 a2 ha1 ha2 hne d hd1 hd2
    obtain ⟨b1, _, rfl⟩ := List.mem_map.1 hd1
    obtain ⟨b2, _, heq⟩ := List.mem_map.1 hd2
    have halfa : a2.toFinset = a1.toFinset := by
      have := congrArg Determinant.alfa heq
      rwa [detOf_alfa, detOf_alfa] at this
    exact hne (combinations_toFinset_inj (List.nodup_range as.nmo) ha1 ha2 halfa.symm)

/-- C6: for `na, nb ≤ nmo` the determinant enumeration of `make_hamiltonian`
produces exactly `C(nmo,na) * C(nmo,nb)` determinants, pairwise distinct in
their occupation bit patterns, as the nested iteration of the alpha
combinations (outer) and beta combinations (inner), both combination lists
being lexicographically sorted. -/
theorem determinant_enumeration (as : AsInts) (st : StateInfo)
    (hna : st.na ≤ as.nmo) (hnb : st.nb ≤ as.nmo) :
    (enumerateDets as st).length = Nat.choose as.nmo st.na * Nat.choose as.nmo st.nb ∧
    (enumerateDets as st).Nodup ∧
    enumerateDets as st = (combinations st.na (List.range as.nmo)).flatMap
      (fun astr => (combinations st.nb (List.range as.nmo)).map fun bstr =>
        detOf astr bstr) ∧
    List.Pairwise (List.Lex (· < ·)) (combinations st.na (List.range as.nmo)) ∧
    List.Pairwise (List.Lex (· < ·)) (combinations st.nb (List.range as.nmo)) :=
  ⟨length_enumerateDets as st, nodup_enumerateDets as st, rfl,
   sorted_lex_combinations st.na (List.pairwise_lt_range as.nmo),
   sorted_lex_combinations st.nb (List.pairwise_lt_range as.nmo)⟩

/-- Witness for C6 at `asW` (`nmo = 1`), `stW` (`na = 1`, `nb = 0`). -/
theorem determinant_enumeration_witness :
    stW.na ≤ asW.nmo ∧ stW.nb ≤ asW.nmo ∧
    ((enumerateDets asW stW).length =
      Nat.choose asW.nmo stW.na * Nat.choose asW.nmo stW.nb ∧
    (enumerateDets asW stW).Nodup ∧
    enumerateDets asW stW = (combinations stW.na (List.range asW.nmo)).flatMap
      (fun astr => (combinations stW.nb (List.range asW.nmo)).map fun bstr =>
        detOf astr bstr) ∧
    List.Pairwise (List.Lex (· < ·)) (combinations stW.na (List.range asW.nmo)) ∧
    List.Pairwise (List.Lex (· < ·)) (combinations stW.nb (List.range asW.nmo))) :=
  ⟨by decide, by decide, determinant_enumeration asW stW (by decide) (by decide)⟩
